import Mathlib

/-!
Verification of the TiKV `Flush` command (`src/storage/txn/commands/flush.rs`)
and the scalar logical operators (`components/tidb_query/src/rpn_expr/impl_op.rs`).

The `Flush::flush` loop is embedded shallowly: the external `prewrite` action
(which lives outside the excerpted sources) is represented by pairing each
mutation with the result that `prewrite` returns for it, and the external
committed-record lookup is represented by an oracle function from keys to an
optional previously-established result list.  The loop itself, its error
dispatch, and its accumulation of per-key results are translated branch by
branch from the source.
-/

/-- Keys are modelled by their encoded byte sequences (`Key::as_encoded()`). -/
abbrev Key := List Nat

/-- Values are byte sequences. -/
abbrev Value := List Nat

/-- `txn_types::TimeStamp`, an opaque totally ordered logical clock value. -/
abbrev TimeStamp := Nat

/-- `kvproto::kvrpcpb::Assertion` carried by each mutation. -/
inductive Assertion where
  | assertNone
  | assertExists
  | assertNotExists
deriving DecidableEq, Repr

/-- `txn_types::Mutation`: the five variants used by `Flush::write_bytes`,
each carrying the payload the source matches on. -/
inductive Mutation where
  | Put (kv : Key × Value) (a : Assertion)
  | Insert (kv : Key × Value) (a : Assertion)
  | Delete (k : Key) (a : Assertion)
  | Lock (k : Key) (a : Assertion)
  | CheckNotExists (k : Key) (a : Assertion)
deriving DecidableEq, Repr

/-- `Mutation::key()`. -/
def Mutation.key : Mutation → Key
  | .Put kv _ => kv.1
  | .Insert kv _ => kv.1
  | .Delete k _ => k
  | .Lock k _ => k
  | .CheckNotExists k _ => k

/-- `Flush::write_bytes` (`flush.rs` lines 47-63): a fold over the mutation
batch adding encoded-key plus value length for `Put`/`Insert`, encoded-key
length for `Delete`/`Lock`, and nothing for `CheckNotExists`. -/
def write_bytes (mutations : List Mutation) : Nat :=
  mutations.foldl
    (fun bytes m =>
      match m with
      | .Put kv _ => bytes + kv.1.length + kv.2.length
      | .Insert kv _ => bytes + kv.1.length + kv.2.length
      | .Delete k _ => bytes + k.length
      | .Lock k _ => bytes + k.length
      | .CheckNotExists _ _ => bytes)
    0

/-- Per-mutation byte cost, written from the spec's formula
(`write_bytes(batch) == Σ(key+value bytes for Put/Insert) + Σ(key bytes for
Delete/Lock) + 0 for CheckNotExists`), to be compared with `write_bytes`. -/
def write_bytes_spec_cost : Mutation → Nat
  | .Put kv _ => kv.1.length + kv.2.length
  | .Insert kv _ => kv.1.length + kv.2.length
  | .Delete k _ => k.length
  | .Lock k _ => k.length
  | .CheckNotExists _ _ => 0

/-- `storage::mvcc::ErrorInner`, restricted to the variants `Flush::flush`
dispatches on, each with the payload fields the source inspects.  All
remaining variants of the source enum are collapsed into `Other`. -/
inductive MvccErrorInner where
  | WriteConflict (start_ts conflict_commit_ts : TimeStamp)
  | PessimisticLockNotFound
  | CommitTsTooLarge
  | KeyIsLocked (k : Key)
  | AssertionFailed (k : Key)
  | Other (code : Nat)
deriving DecidableEq, Repr

instance {ε α : Type} [DecidableEq ε] [DecidableEq α] : DecidableEq (Except ε α) :=
  fun a b =>
    match a, b with
    | .ok x, .ok y =>
        if h : x = y then isTrue (by rw [h]) else isFalse (by simp [h])
    | .error x, .error y =>
        if h : x = y then isTrue (by rw [h]) else isFalse (by simp [h])
    | .ok _, .error _ => isFalse (by simp)
    | .error _, .ok _ => isFalse (by simp)

/-- One entry of the per-key result list
(`Vec<std::result::Result<(), storage::errors::Error>>`); the storage-error
wrapper `e.into()` is modelled as the identity on the MVCC error. -/
abbrev PerKeyRes := Except MvccErrorInner Unit

/-- Successful prewrite outcome: the returned minimal commit timestamp and
old value, together with whether the call appended a new lock record for the
key to the transaction accumulator (spec section 4.1: "on success, a lock
record is appended to the Transaction Accumulator"). -/
structure PrewriteOk where
  minCommitTs : TimeStamp
  oldValue : Option Value
  stagedLock : Bool
deriving DecidableEq, Repr

/-- Result of one `prewrite` call as observed by `Flush::flush`. -/
abbrev PrewriteResult := Except MvccErrorInner PrewriteOk

/-- Modelled from the spec: `check_committed_record_on_err`
(`txn/actions/common.rs`, outside the excerpted sources).  Spec sections 4.2
and 4.3: look up the committed record for `(key, start_ts)`; if found, return
the previously-established per-key result list (and discard the in-progress
accumulator); otherwise propagate the original error.  The lookup itself is
abstracted as an `Option` argument. -/
def check_committed_record_on_err (found : Option (List PerKeyRes))
    (orig : MvccErrorInner) : Except MvccErrorInner (List PerKeyRes) :=
  match found with
  | some ls => Except.ok ls
  | none => Except.error orig

/-- Outcome of `Flush::flush` together with the final content of the
transaction accumulator (`MvccTxn`'s staged lock keys): `ok` is `Ok(locks)`,
`fatal` is `Err(e)`, and `panicked` is the `unreachable!()` branch. -/
inductive FlushRes where
  | ok (locks : List PerKeyRes) (staged : List Key)
  | fatal (e : MvccErrorInner) (staged : List Key)
  | panicked (staged : List Key)
deriving DecidableEq, Repr

/-- The staged-lock accumulator component of a flush outcome. -/
def FlushRes.staged : FlushRes → List Key
  | .ok _ s => s
  | .fatal _ s => s
  | .panicked s => s

/-- Outcome of `Flush::flush` with the accumulator component erased. -/
inductive FlushOutcome where
  | ok (locks : List PerKeyRes)
  | fatal (e : MvccErrorInner)
  | panicked
deriving DecidableEq, Repr

/-- Forget the accumulator component of a flush outcome. -/
def FlushRes.outcome : FlushRes → FlushOutcome
  | .ok l _ => .ok l
  | .fatal e _ => .fatal e
  | .panicked _ => .panicked

/-- Whether the outcome is the `unreachable!()` branch. -/
def FlushRes.isPanic : FlushRes → Bool
  | .panicked _ => true
  | _ => false

/-- Whether the outcome is `Ok`. -/
def FlushRes.isOk : FlushRes → Bool
  | .ok _ _ => true
  | _ => false

/-- The mutation loop of `Flush::flush` (`flush.rs` lines 128-189), translated
branch by branch.  `cr` is the committed-record lookup for the transaction's
`start_ts`; each list entry pairs a mutation with the result `prewrite`
returns for it; `staged` is the transaction accumulator's lock keys; `locks`
is the per-key result list being accumulated; `af` is the remembered
`assertion_failure`.  A short-circuit return of a previously-established
result list resets the accumulator (`txn.clear()` inside
`check_committed_record_on_err`). -/
def flushAux (cr : Key → Option (List PerKeyRes)) :
    List (Mutation × PrewriteResult) → List Key → List PerKeyRes →
    Option MvccErrorInner → FlushRes
  | [], staged, locks, af =>
    match af with
    | some e => .fatal e staged
    | none => .ok locks staged
  | (m, pr) :: rest, staged, locks, af =>
    match pr with
    | .ok o =>
        flushAux cr rest (if o.stagedLock then staged ++ [m.key] else staged) locks af
    | .error (.WriteConflict s c) =>
        if s < c then
          match check_committed_record_on_err (cr m.key) (.WriteConflict s c) with
          | .ok ls => .ok ls []
          | .error e2 => .fatal e2 staged
        else
          .fatal (.WriteConflict s c) staged
    | .error .PessimisticLockNotFound => .panicked staged
    | .error .CommitTsTooLarge => .panicked staged
    | .error (.KeyIsLocked k) =>
        match check_committed_record_on_err (cr m.key) (.KeyIsLocked k) with
        | .ok ls => .ok ls []
        | .error e2 => flushAux cr rest staged (locks ++ [Except.error e2]) af
    | .error (.AssertionFailed k) =>
        flushAux cr rest staged locks (if af.isNone then some (.AssertionFailed k) else af)
    | .error (.Other code) => .fatal (.Other code) staged

/-- `Flush::flush` run from the initial state: empty accumulator, empty
per-key result list, no remembered assertion failure. -/
def flush (cr : Key → Option (List PerKeyRes))
    (entries : List (Mutation × PrewriteResult)) : FlushRes :=
  flushAux cr entries [] [] none

/-- `TransactionKind` from the transaction layer. -/
inductive TransactionKind where
  | Optimistic (deferred : Bool)
  | Pessimistic (ts : TimeStamp)
deriving DecidableEq, Repr

/-- `CommitKind` from the transaction layer. -/
inductive CommitKind where
  | TwoPc
  | OnePc (ts : TimeStamp)
  | Async (ts : TimeStamp)
deriving DecidableEq, Repr

/-- `kvproto::kvrpcpb::PrewriteRequestPessimisticAction`. -/
inductive PessimisticAction where
  | SkipPessimisticCheck
  | DoPessimisticCheck
  | DoConstraintCheck
deriving DecidableEq, Repr

/-- `kvproto::kvrpcpb::AssertionLevel`. -/
inductive AssertionLevel where
  | Off
  | Fast
  | Strict
deriving DecidableEq, Repr

/-- The fields of `TransactionProperties` that `Flush::flush` fills in
(`flush.rs` lines 111-123). -/
structure TransactionProperties where
  start_ts : TimeStamp
  kind : TransactionKind
  commit_kind : CommitKind
  primary : Key
  txn_size : Nat
  lock_ttl : Nat
  min_commit_ts : TimeStamp
deriving DecidableEq, Repr

/-- The `TransactionProperties` value constructed by `Flush::flush`
(`flush.rs` lines 111-123): optimistic non-deferred kind, two-phase commit,
unknown transaction size, zero minimal commit timestamp. -/
def flushProps (start_ts : TimeStamp) (primary : Key) (lock_ttl : Nat) :
    TransactionProperties :=
  ⟨start_ts, .Optimistic false, .TwoPc, primary, 0, lock_ttl, 0⟩

/-- The pessimistic action `Flush::flush` passes to every `prewrite` call
(`flush.rs` line 137). -/
def flushPessimisticAction : PessimisticAction := .SkipPessimisticCheck

/-- The part of `WriteResult` observable here: `rows`, the per-key result
list delivered as `ProcessResult::MultiRes`, and the staged modifications
handed to the apply layer (`txn.into_modifies()`). -/
structure WriteResult where
  rows : Nat
  results : List PerKeyRes
  modifications : List Key
deriving DecidableEq, Repr

/-- `Flush::process_write` (`flush.rs` lines 69-100) as far as result
production is concerned: a `WriteResult` is built only when `flush` returns
`Ok`; on `Err` the `?` operator aborts the command and nothing is handed to
the apply layer. -/
def process_write (cr : Key → Option (List PerKeyRes))
    (entries : List (Mutation × PrewriteResult)) : Option WriteResult :=
  match flush cr entries with
  | .ok locks staged => some ⟨entries.length, locks, staged⟩
  | _ => none

/-- An entry does not cause `flush` to return (or panic) when reached:
`prewrite` succeeded, or failed with a `KeyIsLocked` whose committed-record
lookup finds nothing, or failed with an `AssertionFailed`. -/
def nonReturning (cr : Key → Option (List PerKeyRes))
    (e : Mutation × PrewriteResult) : Bool :=
  match e.2 with
  | .ok _ => true
  | .error (.KeyIsLocked _) => (cr e.1.key).isNone
  | .error (.AssertionFailed _) => true
  | _ => false

/-- State transformation performed by one non-returning loop iteration on
`(staged, locks, assertion_failure)`. -/
def stepSt (st : List Key × List PerKeyRes × Option MvccErrorInner)
    (e : Mutation × PrewriteResult) :
    List Key × List PerKeyRes × Option MvccErrorInner :=
  match e.2 with
  | .ok o => (if o.stagedLock then st.1 ++ [e.1.key] else st.1, st.2.1, st.2.2)
  | .error (.KeyIsLocked k) =>
      (st.1, st.2.1 ++ [Except.error (.KeyIsLocked k)], st.2.2)
  | .error (.AssertionFailed k) =>
      (st.1, st.2.1, if st.2.2.isNone then some (.AssertionFailed k) else st.2.2)
  | _ => st

/-- State after a non-returning prefix of the loop. -/
def runPre (pre : List (Mutation × PrewriteResult))
    (st : List Key × List PerKeyRes × Option MvccErrorInner) :
    List Key × List PerKeyRes × Option MvccErrorInner :=
  pre.foldl stepSt st

/-- The first `AssertionFailed` error among the prewrite results, in batch
order. -/
def firstAF : List (Mutation × PrewriteResult) → Option MvccErrorInner
  | [] => none
  | (_, .error (.AssertionFailed k)) :: _ => some (.AssertionFailed k)
  | _ :: rest => firstAF rest

/-- The per-key result entry contributed by an entry of the batch: one
`KeyIsLocked` error per mutation failing with it, nothing for anything
else. -/
def recoverableEntry : Mutation × PrewriteResult → Option PerKeyRes
  | (_, .error (.KeyIsLocked k)) => some (Except.error (.KeyIsLocked k))
  | _ => none

/-- Per-key MVCC state visible through a snapshot: the current lock holder's
`start_ts`, if any, and the committed records `(start_ts, commit_ts)` on the
key. -/
structure KeyInfo where
  lock : Option TimeStamp
  commits : List (TimeStamp × TimeStamp)
deriving DecidableEq, Repr

/-- A snapshot of the store: per-key MVCC state. -/
def Store := Key → KeyInfo

/-- Modelled from the spec: the Snapshot Reader's committed-record lookup for
`(key, start_ts)` (spec sections 2 and 4.3; `SnapshotReader::get_txn_commit_record`
is outside the excerpted sources).  When a committed record of this
transaction exists on the key it yields the previously-established per-key
result list (a single `Ok` entry, as produced by the prior attempt);
otherwise nothing. -/
def get_txn_commit_record (sts : TimeStamp) (st : Store) :
    Key → Option (List PerKeyRes) :=
  fun k =>
    if (st k).commits.any (fun c => decide (c.1 = sts)) then some [Except.ok ()]
    else none

/-- Modelled from the spec: the `prewrite` action (spec sections 4.1 and 7),
which is outside the excerpted sources.  Over the per-key MVCC store it
classifies the outcome by the spec's taxonomy: a key locked by a different
transaction yields `KeyIsLocked`; a key locked by this same transaction is an
idempotent re-stage and succeeds without creating a new lock record (spec
invariant (a): at most one lock record per `(key, start_ts)`); otherwise a
committed version with `commit_ts` above `start_ts` yields `WriteConflict`
carrying that commit timestamp; otherwise the mutation is staged and a lock
record for `(key, start_ts)` is appended to the accumulator. -/
def prewrite (sts : TimeStamp) (m : Mutation) (st : Store) : PrewriteResult :=
  match (st m.key).lock with
  | some l =>
      if l = sts then Except.ok ⟨0, none, false⟩
      else Except.error (.KeyIsLocked m.key)
  | none =>
      match (st m.key).commits.find? (fun c => decide (sts < c.2)) with
      | some c => Except.error (.WriteConflict sts c.2)
      | none => Except.ok ⟨0, none, true⟩

/-- `Flush::flush` over the spec-modelled store: each mutation is paired with
the result `prewrite` gives for it on the (fixed) snapshot, and the
committed-record lookup reads the same snapshot. -/
def flushSpec (sts : TimeStamp) (st : Store) (muts : List Mutation) : FlushRes :=
  flush (get_txn_commit_record sts st) (muts.map (fun m => (m, prewrite sts m st)))

/-- The store after the locks staged by a flush invocation have been applied
by the external apply layer: each staged key now carries this transaction's
lock; nothing else changes (in particular, no commit of any transaction
intervenes). -/
def applyStaged (sts : TimeStamp) (st : Store) (ks : List Key) : Store :=
  fun k => if k ∈ ks then ⟨some sts, (st k).commits⟩ else st k

/-- Two loop entries with the same mutation whose prewrite results are equal,
or are both successes: such entries drive the loop through the same branch
with the same per-key result and assertion bookkeeping, differing at most in
lock staging. -/
def entryEquiv (e1 e2 : Mutation × PrewriteResult) : Prop :=
  e1.1 = e2.1 ∧
    (e1.2 = e2.2 ∨ ((∃ o, e1.2 = Except.ok o) ∧ ∃ o, e2.2 = Except.ok o))

/-- `logical_and` (`impl_op.rs` lines 10-16); the match arms are translated
in source order.  The source wraps the value in `Ok` and has no error path. -/
def logical_and (lhs rhs : Option Int) : Except String (Option Int) :=
  Except.ok
    (if lhs = some 0 ∨ rhs = some 0 then some 0
     else if lhs = none ∨ rhs = none then none
     else some 1)

/-- `logical_or` (`impl_op.rs` lines 20-28); the match arms are translated in
source order.  The source wraps the value in `Ok` and has no error path. -/
def logical_or (arg0 arg1 : Option Int) : Except String (Option Int) :=
  Except.ok
    (if arg0 = some 0 ∧ arg1 = some 0 then some 0
     else if (arg0 = none ∧ arg1 = none) ∨ (arg0 = none ∧ arg1 = some 0) ∨
             (arg0 = some 0 ∧ arg1 = none) then none
     else some 1)

theorem flushAux_nil_none (cr : Key → Option (List PerKeyRes)) (staged : List Key)
    (locks : List PerKeyRes) :
    flushAux cr [] staged locks none = .ok locks staged := rfl

theorem flushAux_nil_some (cr : Key → Option (List PerKeyRes)) (staged : List Key)
    (locks : List PerKeyRes) (e : MvccErrorInner) :
    flushAux cr [] staged locks (some e) = .fatal e staged := rfl

theorem flushAux_cons_ok (cr : Key → Option (List PerKeyRes)) (m : Mutation)
    (o : PrewriteOk) (rest : List (Mutation × PrewriteResult)) (staged : List Key)
    (locks : List PerKeyRes) (af : Option MvccErrorInner) :
    flushAux cr ((m, Except.ok o) :: rest) staged locks af =
      flushAux cr rest (if o.stagedLock then staged ++ [m.key] else staged) locks af := rfl

theorem flushAux_cons_wc (cr : Key → Option (List PerKeyRes)) (m : Mutation)
    (s c : TimeStamp) (rest : List (Mutation × PrewriteResult)) (staged : List Key)
    (locks : List PerKeyRes) (af : Option MvccErrorInner) :
    flushAux cr ((m, Except.error (.WriteConflict s c)) :: rest) staged locks af =
      if s < c then
        match check_committed_record_on_err (cr m.key) (.WriteConflict s c) with
        | .ok ls => .ok ls []
        | .error e2 => .fatal e2 staged
      else
        .fatal (.WriteConflict s c) staged := rfl

theorem flushAux_cons_kil (cr : Key → Option (List PerKeyRes)) (m : Mutation)
    (k : Key) (rest : List (Mutation × PrewriteResult)) (staged : List Key)
    (locks : List PerKeyRes) (af : Option MvccErrorInner) :
    flushAux cr ((m, Except.error (.KeyIsLocked k)) :: rest) staged locks af =
      match check_committed_record_on_err (cr m.key) (.KeyIsLocked k) with
      | .ok ls => .ok ls []
      | .error e2 => flushAux cr rest staged (locks ++ [Except.error e2]) af := rfl

theorem flushAux_cons_af (cr : Key → Option (List PerKeyRes)) (m : Mutation)
    (k : Key) (rest : List (Mutation × PrewriteResult)) (staged : List Key)
    (locks : List PerKeyRes) (af : Option MvccErrorInner) :
    flushAux cr ((m, Except.error (.AssertionFailed k)) :: rest) staged locks af =
      flushAux cr rest staged locks
        (if af.isNone then some (.AssertionFailed k) else af) := rfl

theorem flushAux_cons_plnf (cr : Key → Option (List PerKeyRes)) (m : Mutation)
    (rest : List (Mutation × PrewriteResult)) (staged : List Key)
    (locks : List PerKeyRes) (af : Option MvccErrorInner) :
    flushAux cr ((m, Except.error .PessimisticLockNotFound) :: rest) staged locks af =
      .panicked staged := rfl

theorem flushAux_cons_ctl (cr : Key → Option (List PerKeyRes)) (m : Mutation)
    (rest : List (Mutation × PrewriteResult)) (staged : List Key)
    (locks : List PerKeyRes) (af : Option MvccErrorInner) :
    flushAux cr ((m, Except.error .CommitTsTooLarge) :: rest) staged locks af =
      .panicked staged := rfl

theorem flushAux_cons_other (cr : Key → Option (List PerKeyRes)) (m : Mutation)
    (code : Nat) (rest : List (Mutation × PrewriteResult)) (staged : List Key)
    (locks : List PerKeyRes) (af : Option MvccErrorInner) :
    flushAux cr ((m, Except.error (.Other code)) :: rest) staged locks af =
      .fatal (.Other code) staged := rfl

theorem flushAux_append_nonReturning (cr : Key → Option (List PerKeyRes))
    (pre rest : List (Mutation × PrewriteResult)) (staged : List Key)
    (locks : List PerKeyRes) (af : Option MvccErrorInner) :
    (∀ e ∈ pre, nonReturning cr e = true) →
    flushAux cr (pre ++ rest) staged locks af =
      flushAux cr rest (runPre pre (staged, locks, af)).1
        (runPre pre (staged, locks, af)).2.1 (runPre pre (staged, locks, af)).2.2 := by
  induction pre generalizing staged locks af with
  | nil => intro _; simp [runPre]
  | cons e pre ih =>
    intro h
    obtain ⟨m, pr⟩ := e
    have hm : nonReturning cr (m, pr) = true := h _ (List.mem_cons_self _ _)
    have hpre : ∀ e ∈ pre, nonReturning cr e = true :=
      fun e he => h e (List.mem_cons_of_mem _ he)
    cases pr with
    | ok o =>
      rw [List.cons_append, flushAux_cons_ok, ih _ _ _ hpre]
      simp [runPre, stepSt]
    | error err =>
      cases err with
      | WriteConflict s c => simp [nonReturning] at hm
      | PessimisticLockNotFound => simp [nonReturning] at hm
      | CommitTsTooLarge => simp [nonReturning] at hm
      | Other code => simp [nonReturning] at hm
      | KeyIsLocked k =>
        have hcr : cr m.key = none := by
          simpa [nonReturning, Option.isNone_iff_eq_none] using hm
        rw [List.cons_append, flushAux_cons_kil]
        simp only [check_committed_record_on_err, hcr]
        rw [ih _ _ _ hpre]
        simp [runPre, stepSt]
      | AssertionFailed k =>
        rw [List.cons_append, flushAux_cons_af, ih _ _ _ hpre]
        simp [runPre, stepSt]

theorem runPre_af_some (pre : List (Mutation × PrewriteResult)) (staged : List Key)
    (locks : List PerKeyRes) (e : MvccErrorInner) :
    (runPre pre (staged, locks, some e)).2.2 = some e := by
  induction pre generalizing staged locks with
  | nil => simp [runPre]
  | cons x pre ih =>
    obtain ⟨m, pr⟩ := x
    cases pr with
    | ok o => simpa [runPre, stepSt] using ih _ _
    | error err =>
      cases err <;> simpa [runPre, stepSt] using ih _ _

theorem runPre_af_none (pre : List (Mutation × PrewriteResult)) (staged : List Key)
    (locks : List PerKeyRes) :
    (runPre pre (staged, locks, none)).2.2 = firstAF pre := by
  induction pre generalizing staged locks with
  | nil => simp [runPre, firstAF]
  | cons x pre ih =>
    obtain ⟨m, pr⟩ := x
    cases pr with
    | ok o => simpa [runPre, stepSt, firstAF] using ih _ _
    | error err =>
      cases err with
      | AssertionFailed k =>
        have h2 := runPre_af_some pre staged locks (.AssertionFailed k)
        simp only [runPre] at h2
        simp only [runPre, List.foldl_cons, firstAF]
        simpa [stepSt] using h2
      | WriteConflict s c => simpa [runPre, stepSt, firstAF] using ih _ _
      | PessimisticLockNotFound => simpa [runPre, stepSt, firstAF] using ih _ _
      | CommitTsTooLarge => simpa [runPre, stepSt, firstAF] using ih _ _
      | KeyIsLocked k => simpa [runPre, stepSt, firstAF] using ih _ _
      | Other code => simpa [runPre, stepSt, firstAF] using ih _ _

/-- C1 counterexample: a batch whose first mutation fails with `KeyIsLocked`
(and whose committed-record lookup finds nothing, so the conflict/lock path
does not resolve as an idempotent retry — the error is appended to the
per-key list) and whose second mutation fails with `AssertionFailed`.  The
claim says the overall outcome then reflects the conflict/lock path and is
never the assertion failure alone; the code instead returns the remembered
assertion failure as the command's error, discarding the accumulated per-key
list. -/
theorem flush_assertion_masks_locked_list_cex :
    (fun (_ : Key) => (none : Option (List PerKeyRes))) [0] = none
  ∧ flush (fun _ => none)
      [(Mutation.Put ([0], []) .assertNone, Except.error (.KeyIsLocked [0])),
       (Mutation.Put ([1], []) .assertNone, Except.error (.AssertionFailed [1]))]
      = FlushRes.fatal (.AssertionFailed [1]) [] := by
  exact ⟨rfl, rfl⟩

/-- C1 (amended): (1) when every entry of the batch is non-returning
(success, unresolved `KeyIsLocked`, or `AssertionFailed`), the command's
result is determined by the FIRST `AssertionFailed` of the batch — it is
returned as the command's error after the loop finishes, even when the
per-key list holds `KeyIsLocked` entries (which are then discarded);
(2) a `WriteConflict` with `conflict_commit_ts > start_ts` reached after a
non-returning prefix decides the command (retry short-circuit or fatal
conflict) — a previously remembered assertion failure is never returned;
(3) likewise a `KeyIsLocked` that resolves as an idempotent retry
short-circuits with the previously-established list. -/
theorem flush_assertion_failure_deferred_priority :
    (∀ (cr : Key → Option (List PerKeyRes)) (muts : List (Mutation × PrewriteResult)),
        (∀ e ∈ muts, nonReturning cr e = true) →
        flush cr muts =
          match firstAF muts with
          | some e => FlushRes.fatal e (runPre muts ([], [], none)).1
          | none =>
              FlushRes.ok (runPre muts ([], [], none)).2.1 (runPre muts ([], [], none)).1)
  ∧ (∀ (cr : Key → Option (List PerKeyRes)) (pre : List (Mutation × PrewriteResult))
        (m : Mutation) (s c : TimeStamp) (rest : List (Mutation × PrewriteResult)),
        (∀ e ∈ pre, nonReturning cr e = true) → s < c →
        flush cr (pre ++ (m, Except.error (.WriteConflict s c)) :: rest) =
          match cr m.key with
          | some ls => FlushRes.ok ls []
          | none => FlushRes.fatal (.WriteConflict s c) (runPre pre ([], [], none)).1)
  ∧ (∀ (cr : Key → Option (List PerKeyRes)) (pre : List (Mutation × PrewriteResult))
        (m : Mutation) (k : Key) (ls : List PerKeyRes)
        (rest : List (Mutation × PrewriteResult)),
        (∀ e ∈ pre, nonReturning cr e = true) → cr m.key = some ls →
        flush cr (pre ++ (m, Except.error (.KeyIsLocked k)) :: rest) =
          FlushRes.ok ls []) := by
  refine ⟨?_, ?_, ?_⟩
  · intro cr muts h
    have h2 := flushAux_append_nonReturning cr muts [] [] [] none h
    rw [List.append_nil] at h2
    rw [flush, h2, runPre_af_none]
    cases hfa : firstAF muts with
    | some e => rw [flushAux_nil_some]
    | none => rw [flushAux_nil_none]
  · intro cr pre m s c rest h hsc
    have h2 := flushAux_append_nonReturning cr pre
      ((m, Except.error (.WriteConflict s c)) :: rest) [] [] none h
    rw [flush, h2, flushAux_cons_wc, if_pos hsc]
    cases hcr : cr m.key with
    | some ls => simp [check_committed_record_on_err, hcr]
    | none => simp [check_committed_record_on_err, hcr, runPre_af_none]
  · intro cr pre m k ls rest h hcr
    have h2 := flushAux_append_nonReturning cr pre
      ((m, Except.error (.KeyIsLocked k)) :: rest) [] [] none h
    rw [flush, h2, flushAux_cons_kil]
    simp [check_committed_record_on_err, hcr]

/-- C1 witness: the three parts of the amended theorem applied at concrete
inputs. -/
theorem flush_assertion_failure_deferred_priority_w :
    flush (fun _ => none)
      [(Mutation.Put ([2], [7]) .assertNone, Except.ok ⟨0, none, true⟩),
       (Mutation.Put ([3], []) .assertNone, Except.error (.AssertionFailed [3]))]
      = FlushRes.fatal (.AssertionFailed [3]) [[2]]
  ∧ flush (fun k => if k = [5] then some [Except.ok ()] else none)
      [(Mutation.Put ([2], [7]) .assertNone, Except.error (.AssertionFailed [2])),
       (Mutation.Delete [5] .assertNone, Except.error (.WriteConflict 1 3))]
      = FlushRes.ok [Except.ok ()] []
  ∧ flush (fun k => if k = [5] then some [Except.ok ()] else none)
      [(Mutation.Delete [5] .assertNone, Except.error (.KeyIsLocked [9]))]
      = FlushRes.ok [Except.ok ()] [] := by
  refine ⟨?_, ?_, ?_⟩
  · have h := flush_assertion_failure_deferred_priority.1 (fun _ => none)
      [(Mutation.Put ([2], [7]) .assertNone, Except.ok ⟨0, none, true⟩),
       (Mutation.Put ([3], []) .assertNone, Except.error (.AssertionFailed [3]))]
      (by decide)
    exact h.trans (by decide)
  · have h := flush_assertion_failure_deferred_priority.2.1
      (fun k => if k = [5] then some [Except.ok ()] else none)
      [(Mutation.Put ([2], [7]) .assertNone, Except.error (.AssertionFailed [2]))]
      (Mutation.Delete [5] .assertNone) 1 3 [] (by decide) (by decide)
    exact h.trans (by decide)
  · have h := flush_assertion_failure_deferred_priority.2.2
      (fun k => if k = [5] then some [Except.ok ()] else none)
      [] (Mutation.Delete [5] .assertNone) [9] [Except.ok ()] []
      (by decide) (by decide)
    exact h.trans (by decide)

/-- C2: when the loop reaches a mutation whose prewrite fails with
`WriteConflict` carrying `conflict_commit_ts` strictly above `start_ts`
(after a non-returning prefix), the committed-record lookup for the key
decides the command before any error is surfaced: a found record makes the
command immediately return that record's previously-established per-key
result list, short-circuiting the rest of the batch; otherwise the conflict
is propagated as a fatal error for the whole command. -/
theorem flush_write_conflict_retry_check
    (cr : Key → Option (List PerKeyRes)) (pre : List (Mutation × PrewriteResult))
    (m : Mutation) (s c : TimeStamp) (rest : List (Mutation × PrewriteResult))
    (h : ∀ e ∈ pre, nonReturning cr e = true) (hsc : s < c) :
    (∀ ls, cr m.key = some ls →
        flush cr (pre ++ (m, Except.error (.WriteConflict s c)) :: rest) =
          FlushRes.ok ls [])
  ∧ (cr m.key = none →
        flush cr (pre ++ (m, Except.error (.WriteConflict s c)) :: rest) =
          FlushRes.fatal (.WriteConflict s c) (runPre pre ([], [], none)).1) := by
  have h2 := flushAux_append_nonReturning cr pre
    ((m, Except.error (.WriteConflict s c)) :: rest) [] [] none h
  constructor
  · intro ls hcr
    rw [flush, h2, flushAux_cons_wc, if_pos hsc]
    simp [check_committed_record_on_err, hcr]
  · intro hcr
    rw [flush, h2, flushAux_cons_wc, if_pos hsc]
    simp [check_committed_record_on_err, hcr]

/-- C2 witness: both branches of the committed-record check at concrete
inputs, after a successful first mutation. -/
theorem flush_write_conflict_retry_check_w :
    flush (fun k => if k = [5] then some [Except.ok ()] else none)
      [(Mutation.Put ([2], [7]) .assertNone, Except.ok ⟨0, none, true⟩),
       (Mutation.Put ([5], [8]) .assertNone, Except.error (.WriteConflict 4 9)),
       (Mutation.Delete [6] .assertNone, Except.error (.Other 0))]
      = FlushRes.ok [Except.ok ()] []
  ∧ flush (fun _ => none)
      [(Mutation.Put ([2], [7]) .assertNone, Except.ok ⟨0, none, true⟩),
       (Mutation.Put ([5], [8]) .assertNone, Except.error (.WriteConflict 4 9))]
      = FlushRes.fatal (.WriteConflict 4 9) [[2]] := by
  constructor
  · have h := (flush_write_conflict_retry_check
      (fun k => if k = [5] then some [Except.ok ()] else none)
      [(Mutation.Put ([2], [7]) .assertNone, Except.ok ⟨0, none, true⟩)]
      (Mutation.Put ([5], [8]) .assertNone) 4 9
      [(Mutation.Delete [6] .assertNone, Except.error (.Other 0))]
      (by decide) (by decide)).1 [Except.ok ()] (by decide)
    exact h
  · have h := (flush_write_conflict_retry_check (fun _ => none)
      [(Mutation.Put ([2], [7]) .assertNone, Except.ok ⟨0, none, true⟩)]
      (Mutation.Put ([5], [8]) .assertNone) 4 9 [] (by decide) (by decide)).2
      (by decide)
    exact h.trans (by decide)

/-- C3: when the loop reaches a mutation whose prewrite fails with
`KeyIsLocked` (after a non-returning prefix), the committed-record lookup is
performed first: a found record makes the command short-circuit with the
previously-established result list; otherwise the `KeyIsLocked` error is
appended to the per-key result list and the loop continues with the
remaining mutations — the command does not abort on this error class. -/
theorem flush_key_is_locked_policy
    (cr : Key → Option (List PerKeyRes)) (pre : List (Mutation × PrewriteResult))
    (m : Mutation) (k : Key) (rest : List (Mutation × PrewriteResult))
    (h : ∀ e ∈ pre, nonReturning cr e = true) :
    (∀ ls, cr m.key = some ls →
        flush cr (pre ++ (m, Except.error (.KeyIsLocked k)) :: rest) =
          FlushRes.ok ls [])
  ∧ (cr m.key = none →
        flush cr (pre ++ (m, Except.error (.KeyIsLocked k)) :: rest) =
          flushAux cr rest (runPre pre ([], [], none)).1
            ((runPre pre ([], [], none)).2.1 ++ [Except.error (.KeyIsLocked k)])
            (runPre pre ([], [], none)).2.2) := by
  have h2 := flushAux_append_nonReturning cr pre
    ((m, Except.error (.KeyIsLocked k)) :: rest) [] [] none h
  constructor
  · intro ls hcr
    rw [flush, h2, flushAux_cons_kil]
    simp [check_committed_record_on_err, hcr]
  · intro hcr
    rw [flush, h2, flushAux_cons_kil]
    simp [check_committed_record_on_err, hcr]

/-- C3 witness: both branches at concrete inputs; in the unresolved branch
the loop demonstrably continues past the locked key and stages the later
mutation. -/
theorem flush_key_is_locked_policy_w :
    flush (fun k => if k = [5] then some [Except.ok ()] else none)
      [(Mutation.Put ([5], [8]) .assertNone, Except.error (.KeyIsLocked [5])),
       (Mutation.Delete [6] .assertNone, Except.error (.Other 0))]
      = FlushRes.ok [Except.ok ()] []
  ∧ flush (fun _ => none)
      [(Mutation.Put ([5], [8]) .assertNone, Except.error (.KeyIsLocked [5])),
       (Mutation.Put ([2], [7]) .assertNone, Except.ok ⟨0, none, true⟩)]
      = FlushRes.ok [Except.error (.KeyIsLocked [5])] [[2]] := by
  constructor
  · have h := (flush_key_is_locked_policy
      (fun k => if k = [5] then some [Except.ok ()] else none)
      [] (Mutation.Put ([5], [8]) .assertNone) [5]
      [(Mutation.Delete [6] .assertNone, Except.error (.Other 0))]
      (by decide)).1 [Except.ok ()] (by decide)
    exact h
  · have h := (flush_key_is_locked_policy (fun _ => none)
      [] (Mutation.Put ([5], [8]) .assertNone) [5]
      [(Mutation.Put ([2], [7]) .assertNone, Except.ok ⟨0, none, true⟩)]
      (by decide)).2 (by decide)
    exact h.trans (by decide)

theorem flushAux_no_panic (cr : Key → Option (List PerKeyRes))
    (entries : List (Mutation × PrewriteResult)) (staged : List Key)
    (locks : List PerKeyRes) (af : Option MvccErrorInner)
    (h : ∀ e ∈ entries,
        e.2 ≠ Except.error MvccErrorInner.PessimisticLockNotFound ∧
        e.2 ≠ Except.error MvccErrorInner.CommitTsTooLarge) :
    (flushAux cr entries staged locks af).isPanic = false := by
  induction entries generalizing staged locks af with
  | nil =>
    cases af <;> simp [flushAux_nil_none, flushAux_nil_some, FlushRes.isPanic]
  | cons e rest ih =>
    obtain ⟨m, pr⟩ := e
    have hm := h _ (List.mem_cons_self _ _)
    have hrest : ∀ e ∈ rest, _ ∧ _ := fun e he => h e (List.mem_cons_of_mem _ he)
    cases pr with
    | ok o => rw [flushAux_cons_ok]; exact ih _ _ _ hrest
    | error err =>
      cases err with
      | WriteConflict s c =>
        rw [flushAux_cons_wc]
        by_cases hsc : s < c
        · rw [if_pos hsc]
          cases hcc : check_committed_record_on_err (cr m.key) (.WriteConflict s c) with
          | ok ls => simp [FlushRes.isPanic]
          | error e2 => simp [FlushRes.isPanic]
        · rw [if_neg hsc]; simp [FlushRes.isPanic]
      | PessimisticLockNotFound => exact absurd rfl hm.1
      | CommitTsTooLarge => exact absurd rfl hm.2
      | KeyIsLocked k =>
        rw [flushAux_cons_kil]
        cases hcc : check_committed_record_on_err (cr m.key) (.KeyIsLocked k) with
        | ok ls => simp [FlushRes.isPanic]
        | error e2 => exact ih _ _ _ hrest
      | AssertionFailed k =>
        rw [flushAux_cons_af]; exact ih _ _ _ hrest
      | Other code =>
        rw [flushAux_cons_other]; simp [FlushRes.isPanic]

theorem prewrite_no_unreachable (sts : TimeStamp) (m : Mutation) (st : Store) :
    prewrite sts m st ≠ Except.error MvccErrorInner.PessimisticLockNotFound ∧
    prewrite sts m st ≠ Except.error MvccErrorInner.CommitTsTooLarge := by
  unfold prewrite
  cases hl : (st m.key).lock with
  | some l => by_cases hls : l = sts <;> simp [hls]
  | none =>
    cases hf : (st m.key).commits.find? (fun c => decide (sts < c.2)) <;> simp

/-- C6: a mutation whose prewrite fails with `PessimisticLockNotFound` or
`CommitTsTooLarge` makes the command abort on the spot (the `unreachable!()`
branch) without recovering or producing a result list; the transaction
properties `Flush` constructs are optimistic non-deferred kind, two-phase
commit kind, zero minimal commit timestamp, with `SkipPessimisticCheck`
passed to every prewrite; and under the spec-modelled prewrite for this
optimistic command the panicking branch is never reached. -/
theorem flush_unreachable_fatal_branches :
    (∀ (cr : Key → Option (List PerKeyRes)) (m : Mutation)
        (rest : List (Mutation × PrewriteResult)) (staged : List Key)
        (locks : List PerKeyRes) (af : Option MvccErrorInner),
        flushAux cr ((m, Except.error .PessimisticLockNotFound) :: rest) staged locks af
          = FlushRes.panicked staged
      ∧ flushAux cr ((m, Except.error .CommitTsTooLarge) :: rest) staged locks af
          = FlushRes.panicked staged)
  ∧ (∀ (start_ts : TimeStamp) (primary : Key) (lock_ttl : Nat),
        (flushProps start_ts primary lock_ttl).kind = TransactionKind.Optimistic false
      ∧ (flushProps start_ts primary lock_ttl).commit_kind = CommitKind.TwoPc
      ∧ (flushProps start_ts primary lock_ttl).min_commit_ts = 0
      ∧ flushPessimisticAction = PessimisticAction.SkipPessimisticCheck)
  ∧ (∀ (sts : TimeStamp) (st : Store) (muts : List Mutation),
        (flushSpec sts st muts).isPanic = false) := by
  refine ⟨fun cr m rest staged locks af => ⟨rfl, rfl⟩,
          fun start_ts primary lock_ttl => ⟨rfl, rfl, rfl, rfl⟩, ?_⟩
  intro sts st muts
  refine flushAux_no_panic _ _ _ _ _ ?_
  intro e he
  obtain ⟨m, hm, rfl⟩ := List.mem_map.mp he
  exact prewrite_no_unreachable sts m st

/-- C7: an error outside the five dispatched classes (the `Other` collapse of
all remaining `ErrorInner` variants) aborts the whole command immediately and
is propagated unchanged as the fatal error; and `process_write` builds a
`WriteResult` exactly when `flush` returns `Ok`, so nothing is handed to the
apply layer on a fatal abort — the client sees either the full per-key
breakdown or a single fatal error, never a mix. -/
theorem flush_fatal_abort_no_write_result :
    (∀ (cr : Key → Option (List PerKeyRes)) (pre : List (Mutation × PrewriteResult))
        (m : Mutation) (code : Nat) (rest : List (Mutation × PrewriteResult)),
        (∀ e ∈ pre, nonReturning cr e = true) →
        flush cr (pre ++ (m, Except.error (.Other code)) :: rest) =
          FlushRes.fatal (.Other code) (runPre pre ([], [], none)).1)
  ∧ (∀ (cr : Key → Option (List PerKeyRes))
        (entries : List (Mutation × PrewriteResult)),
        (process_write cr entries).isSome = (flush cr entries).isOk)
  ∧ (∀ (cr : Key → Option (List PerKeyRes))
        (entries : List (Mutation × PrewriteResult))
        (locks : List PerKeyRes) (staged : List Key),
        flush cr entries = FlushRes.ok locks staged →
        process_write cr entries = some ⟨entries.length, locks, staged⟩) := by
  refine ⟨?_, ?_, ?_⟩
  · intro cr pre m code rest h
    have h2 := flushAux_append_nonReturning cr pre
      ((m, Except.error (.Other code)) :: rest) [] [] none h
    rw [flush, h2, flushAux_cons_other]
  · intro cr entries
    unfold process_write
    cases flush cr entries <;> simp [FlushRes.isOk]
  · intro cr entries locks staged h
    unfold process_write
    rw [h]

/-- C7 witness: a fatal `Other` error after a successful first mutation
aborts with that error unchanged and produces no `WriteResult`; an
error-free batch produces one. -/
theorem flush_fatal_abort_no_write_result_w :
    flush (fun _ => none)
      [(Mutation.Put ([2], [7]) .assertNone, Except.ok ⟨0, none, true⟩),
       (Mutation.Delete [6] .assertNone, Except.error (.Other 42))]
      = FlushRes.fatal (.Other 42) [[2]]
  ∧ process_write (fun _ => none)
      [(Mutation.Put ([2], [7]) .assertNone, Except.ok ⟨0, none, true⟩)]
      = some ⟨1, [], [[2]]⟩ := by
  constructor
  · have h := flush_fatal_abort_no_write_result.1 (fun _ => none)
      [(Mutation.Put ([2], [7]) .assertNone, Except.ok ⟨0, none, true⟩)]
      (Mutation.Delete [6] .assertNone) 42 [] (by decide)
    exact h.trans (by decide)
  · exact flush_fatal_abort_no_write_result.2.2 (fun _ => none)
      [(Mutation.Put ([2], [7]) .assertNone, Except.ok ⟨0, none, true⟩)]
      [] [[2]] (by decide)

theorem runPre_locks (pre : List (Mutation × PrewriteResult)) (staged : List Key)
    (locks : List PerKeyRes) (af : Option MvccErrorInner) :
    (runPre pre (staged, locks, af)).2.1 = locks ++ pre.filterMap recoverableEntry := by
  induction pre generalizing staged locks af with
  | nil => simp [runPre]
  | cons e pre ih =>
    obtain ⟨m, pr⟩ := e
    cases pr with
    | ok o =>
      simp only [runPre, List.foldl_cons] at ih ⊢
      rw [stepSt]
      simp only [ih]
      simp [recoverableEntry, List.filterMap_cons]
    | error err =>
      cases err with
      | KeyIsLocked k =>
        simp only [runPre, List.foldl_cons] at ih ⊢
        rw [stepSt]
        simp only [ih]
        simp [recoverableEntry, List.filterMap_cons]
      | AssertionFailed k =>
        simp only [runPre, List.foldl_cons] at ih ⊢
        rw [stepSt]
        simp only [ih]
        simp [recoverableEntry, List.filterMap_cons]
      | WriteConflict s c =>
        simp only [runPre, List.foldl_cons] at ih ⊢
        rw [stepSt]
        simp only [ih]
        simp [recoverableEntry, List.filterMap_cons]
      | PessimisticLockNotFound =>
        simp only [runPre, List.foldl_cons] at ih ⊢
        rw [stepSt]
        simp only [ih]
        simp [recoverableEntry, List.filterMap_cons]
      | CommitTsTooLarge =>
        simp only [runPre, List.foldl_cons] at ih ⊢
        rw [stepSt]
        simp only [ih]
        simp [recoverableEntry, List.filterMap_cons]
      | Other code =>
        simp only [runPre, List.foldl_cons] at ih ⊢
        rw [stepSt]
        simp only [ih]
        simp [recoverableEntry, List.filterMap_cons]

/-- C8: along a loop that never returns early, the accumulated per-key
result list consists of exactly one `KeyIsLocked` entry per mutation failing
with an unresolved `KeyIsLocked`, in batch order — successes and deferred
assertion failures contribute no entry — and when additionally no assertion
failure occurred, the command returns exactly that accumulated list. -/
theorem flush_result_list_contents (cr : Key → Option (List PerKeyRes))
    (muts : List (Mutation × PrewriteResult))
    (h : ∀ e ∈ muts, nonReturning cr e = true) :
    ((runPre muts ([], [], none)).2.1 = muts.filterMap recoverableEntry)
  ∧ (firstAF muts = none →
      flush cr muts =
        FlushRes.ok (muts.filterMap recoverableEntry) (runPre muts ([], [], none)).1) := by
  constructor
  · simpa using runPre_locks muts [] [] none
  · intro hfa
    have h2 := flushAux_append_nonReturning cr muts [] [] [] none h
    rw [List.append_nil] at h2
    rw [flush, h2, runPre_af_none, hfa, flushAux_nil_none, runPre_locks]
    simp

/-- C8 witness: a batch with a success, an unresolved locked key, and a
deferred-priority-free completion returns a singleton result list. -/
theorem flush_result_list_contents_w :
    flush (fun _ => none)
      [(Mutation.Put ([2], [7]) .assertNone, Except.ok ⟨0, none, true⟩),
       (Mutation.Put ([5], [8]) .assertNone, Except.error (.KeyIsLocked [5])),
       (Mutation.Delete [6] .assertNone, Except.ok ⟨0, none, true⟩)]
      = FlushRes.ok [Except.error (.KeyIsLocked [5])] [[2], [6]] := by
  have h := (flush_result_list_contents (fun _ => none)
    [(Mutation.Put ([2], [7]) .assertNone, Except.ok ⟨0, none, true⟩),
     (Mutation.Put ([5], [8]) .assertNone, Except.error (.KeyIsLocked [5])),
     (Mutation.Delete [6] .assertNone, Except.ok ⟨0, none, true⟩)]
    (by decide)).2 (by decide)
  exact h.trans (by decide)

/-- C9: `write_bytes` of a batch is the sum over its mutations of
encoded-key plus value bytes for `Put`/`Insert`, encoded-key bytes for
`Delete`/`Lock`, and zero for `CheckNotExists`. -/
theorem write_bytes_sum (ms : List Mutation) :
    write_bytes ms = (ms.map write_bytes_spec_cost).sum := by
  have aux : ∀ (l : List Mutation) (b : Nat),
      l.foldl
        (fun bytes m =>
          match m with
          | .Put kv _ => bytes + kv.1.length + kv.2.length
          | .Insert kv _ => bytes + kv.1.length + kv.2.length
          | .Delete k _ => bytes + k.length
          | .Lock k _ => bytes + k.length
          | .CheckNotExists _ _ => bytes)
        b = b + (l.map write_bytes_spec_cost).sum := by
    intro l
    induction l with
    | nil => intro b; simp
    | cons m rest ih =>
      intro b
      cases m <;> simp [List.foldl_cons, ih, write_bytes_spec_cost] <;> omega
  unfold write_bytes
  rw [aux]
  simp

/-- C10: the scalar logical operators implement SQL three-valued Kleene
logic over nullable integers and never return an error: `logical_and` is
`Some 0` whenever either operand is `Some 0`, `None` when neither operand is
`Some 0` and at least one is `None`, and `Some 1` when both operands are
non-zero values; `logical_or` is `Some 1` whenever either operand is a
non-zero value, `None` when no operand is non-zero and at least one is
`None`, and `Some 0` exactly when both operands are `Some 0`. -/
theorem logical_ops_kleene (a b : Option Int) :
    (∃ r, logical_and a b = Except.ok r)
  ∧ ((a = some 0 ∨ b = some 0) → logical_and a b = Except.ok (some 0))
  ∧ (¬(a = some 0 ∨ b = some 0) → (a = none ∨ b = none) →
        logical_and a b = Except.ok none)
  ∧ ((∃ x, a = some x ∧ x ≠ 0) → (∃ y, b = some y ∧ y ≠ 0) →
        logical_and a b = Except.ok (some 1))
  ∧ (∃ r, logical_or a b = Except.ok r)
  ∧ (((∃ x, a = some x ∧ x ≠ 0) ∨ (∃ y, b = some y ∧ y ≠ 0)) →
        logical_or a b = Except.ok (some 1))
  ∧ (¬((∃ x, a = some x ∧ x ≠ 0) ∨ (∃ y, b = some y ∧ y ≠ 0)) →
        (a = none ∨ b = none) → logical_or a b = Except.ok none)
  ∧ (logical_or a b = Except.ok (some 0) ↔ (a = some 0 ∧ b = some 0)) := by
  refine ⟨⟨_, rfl⟩, ?_, ?_, ?_, ⟨_, rfl⟩, ?_, ?_, ?_⟩
  · intro h
    simp [logical_and, h]
  · intro h1 h2
    simp [logical_and, h1, h2]
  · rintro ⟨x, rfl, hx⟩ ⟨y, rfl, hy⟩
    simp [logical_and, hx, hy]
  · rintro (⟨x, rfl, hx⟩ | ⟨y, rfl, hy⟩)
    · rcases b with _ | y
      · simp [logical_or, hx]
      · by_cases hy : y = 0 <;> simp [logical_or, hx, hy]
    · rcases a with _ | x
      · simp [logical_or, hy]
      · by_cases hx : x = 0 <;> simp [logical_or, hx, hy]
  · intro h1 h2
    have h1a : ¬∃ x, a = some x ∧ x ≠ 0 := fun hx => h1 (Or.inl hx)
    have h1b : ¬∃ y, b = some y ∧ y ≠ 0 := fun hy => h1 (Or.inr hy)
    rcases a with _ | x
    · rcases b with _ | y
      · simp [logical_or]
      · have hy : y = 0 := by
          by_contra hy
          exact h1b ⟨y, rfl, hy⟩
        subst hy
        simp [logical_or]
    · have hx : x = 0 := by
        by_contra hx
        exact h1a ⟨x, rfl, hx⟩
      subst hx
      rcases b with _ | y
      · simp [logical_or]
      · rcases h2 with h2 | h2 <;> simp at h2
  · constructor
    · intro h
      unfold logical_or at h
      split_ifs at h with h1 h2
      · exact h1
      · simp at h
      · simp at h
    · rintro ⟨ha, hb⟩
      simp [logical_or, ha, hb]

/-- C10 witness: the characterization applied at concrete operand pairs,
covering each three-valued case. -/
theorem logical_ops_kleene_w :
    logical_and (some 0) none = Except.ok (some 0)
  ∧ logical_and none (some 3) = Except.ok none
  ∧ logical_and (some 2) (some (-1)) = Except.ok (some 1)
  ∧ logical_or none (some 5) = Except.ok (some 1)
  ∧ logical_or (some 0) none = Except.ok none
  ∧ logical_or (some 0) (some 0) = Except.ok (some 0) := by
  refine ⟨?_, ?_, ?_, ?_, ?_, ?_⟩
  · exact (logical_ops_kleene (some 0) none).2.1 (Or.inl rfl)
  · exact (logical_ops_kleene none (some 3)).2.2.1 (by simp) (Or.inl rfl)
  · exact (logical_ops_kleene (some 2) (some (-1))).2.2.2.1
      ⟨2, rfl, by decide⟩ ⟨-1, rfl, by decide⟩
  · exact (logical_ops_kleene none (some 5)).2.2.2.2.2.1
      (Or.inr ⟨5, rfl, by decide⟩)
  · refine (logical_ops_kleene (some 0) none).2.2.2.2.2.2.1 ?_ (Or.inr rfl)
    rintro (⟨x, hx, hx0⟩ | ⟨y, hy, hy0⟩) <;> simp_all
  · exact (logical_ops_kleene (some 0) (some 0)).2.2.2.2.2.2.2.mpr ⟨rfl, rfl⟩

theorem prewrite_of_clean (sts : TimeStamp) (m : Mutation) (st : Store)
    (h1 : (st m.key).lock = none)
    (h2 : (st m.key).commits.find? (fun c => decide (sts < c.2)) = none) :
    prewrite sts m st = Except.ok ⟨0, none, true⟩ := by
  unfold prewrite
  rw [h1, h2]

theorem prewrite_of_self_lock (sts : TimeStamp) (m : Mutation) (st : Store)
    (h1 : (st m.key).lock = some sts) :
    prewrite sts m st = Except.ok ⟨0, none, false⟩ := by
  unfold prewrite
  rw [h1]
  simp

theorem prewrite_of_foreign_lock (sts : TimeStamp) (m : Mutation) (st : Store)
    (l : TimeStamp) (h1 : (st m.key).lock = some l) (h2 : l ≠ sts) :
    prewrite sts m st = Except.error (.KeyIsLocked m.key) := by
  unfold prewrite
  rw [h1]
  simp [h2]

theorem prewrite_ok_staged_inv (sts : TimeStamp) (m : Mutation) (st : Store)
    (o : PrewriteOk) (h : prewrite sts m st = Except.ok o) (hs : o.stagedLock = true) :
    (st m.key).lock = none ∧
      (st m.key).commits.find? (fun c => decide (sts < c.2)) = none := by
  unfold prewrite at h
  rcases hinfo : st m.key with ⟨lk, cms⟩
  rw [hinfo] at h
  dsimp at h
  cases lk with
  | some l =>
    by_cases hls : l = sts
    · simp only [hls, if_pos rfl] at h
      have h2 : false = o.stagedLock :=
        congrArg (fun r => match r with | Except.ok o => o.stagedLock | Except.error _ => false) h
      rw [hs] at h2
      simp at h2
    · simp [hls] at h
  | none =>
    cases hf : cms.find? (fun c => decide (sts < c.2)) with
    | some c => rw [hf] at h; simp at h
    | none => exact ⟨rfl, rfl⟩

theorem get_txn_commit_record_applyStaged (sts : TimeStamp) (st : Store) (ks : List Key) :
    get_txn_commit_record sts (applyStaged sts st ks) = get_txn_commit_record sts st := by
  funext k
  unfold get_txn_commit_record applyStaged
  by_cases hk : k ∈ ks
  · rw [if_pos hk]
  · rw [if_neg hk]

theorem forall2_map_of_mem {α β : Type} {R : β → β → Prop} (f g : α → β) :
    ∀ (l : List α), (∀ a ∈ l, R (f a) (g a)) → List.Forall₂ R (l.map f) (l.map g) := by
  intro l
  induction l with
  | nil => intro _; simp
  | cons a l ih =>
    intro h
    simp only [List.map_cons]
    exact List.Forall₂.cons (h a (List.mem_cons_self _ _))
      (ih (fun a ha => h a (List.mem_cons_of_mem _ ha)))

theorem flushAux_outcome_congr (cr : Key → Option (List PerKeyRes)) :
    ∀ (l1 l2 : List (Mutation × PrewriteResult)), List.Forall₂ entryEquiv l1 l2 →
    ∀ (s1 s2 : List Key) (locks : List PerKeyRes) (af : Option MvccErrorInner),
      (flushAux cr l1 s1 locks af).outcome = (flushAux cr l2 s2 locks af).outcome := by
  intro l1 l2 hf
  induction hf with
  | nil =>
    intro s1 s2 locks af
    cases af <;> simp [flushAux_nil_none, flushAux_nil_some, FlushRes.outcome]
  | @cons e1 e2 t1 t2 h1 h2 ih =>
    intro s1 s2 locks af
    obtain ⟨m1, p1⟩ := e1
    obtain ⟨m2, p2⟩ := e2
    obtain ⟨hm, hp⟩ := h1
    dsimp at hm hp
    subst hm
    rcases hp with hp | ⟨⟨o1, ho1⟩, ⟨o2, ho2⟩⟩
    · subst hp
      cases p1 with
      | ok o =>
        rw [flushAux_cons_ok, flushAux_cons_ok]
        exact ih _ _ _ _
      | error err =>
        cases err with
        | WriteConflict s c =>
          rw [flushAux_cons_wc, flushAux_cons_wc]
          by_cases hsc : s < c
          · rw [if_pos hsc, if_pos hsc]
            cases check_committed_record_on_err (cr m1.key) (.WriteConflict s c) with
            | ok ls => simp [FlushRes.outcome]
            | error e2 => simp [FlushRes.outcome]
          · rw [if_neg hsc, if_neg hsc]; simp [FlushRes.outcome]
        | PessimisticLockNotFound =>
          rw [flushAux_cons_plnf, flushAux_cons_plnf]; simp [FlushRes.outcome]
        | CommitTsTooLarge =>
          rw [flushAux_cons_ctl, flushAux_cons_ctl]; simp [FlushRes.outcome]
        | KeyIsLocked k =>
          rw [flushAux_cons_kil, flushAux_cons_kil]
          cases check_committed_record_on_err (cr m1.key) (.KeyIsLocked k) with
          | ok ls => simp [FlushRes.outcome]
          | error e2 => exact ih _ _ _ _
        | AssertionFailed k =>
          rw [flushAux_cons_af, flushAux_cons_af]
          exact ih _ _ _ _
        | Other code =>
          rw [flushAux_cons_other, flushAux_cons_other]; simp [FlushRes.outcome]
    · subst ho1
      subst ho2
      rw [flushAux_cons_ok, flushAux_cons_ok]
      exact ih _ _ _ _

theorem flushAux_staged_mem (cr : Key → Option (List PerKeyRes)) :
    ∀ (entries : List (Mutation × PrewriteResult)) (staged : List Key)
      (locks : List PerKeyRes) (af : Option MvccErrorInner) (k : Key),
      k ∈ (flushAux cr entries staged locks af).staged →
      k ∈ staged ∨
        ∃ m o, (m, Except.ok o) ∈ entries ∧ PrewriteOk.stagedLock o = true ∧
          Mutation.key m = k := by
  intro entries
  induction entries with
  | nil =>
    intro staged locks af k hk
    cases af <;> simp [flushAux_nil_none, flushAux_nil_some, FlushRes.staged] at hk <;>
      exact Or.inl hk
  | cons e rest ih =>
    intro staged locks af k hk
    obtain ⟨m, pr⟩ := e
    cases pr with
    | ok o =>
      rw [flushAux_cons_ok] at hk
      rcases ih _ _ _ k hk with h | ⟨m', o', hmem, hstg, hkey⟩
      · by_cases hsl : o.stagedLock
        · rw [if_pos hsl] at h
          rcases List.mem_append.mp h with h | h
          · exact Or.inl h
          · simp at h
            exact Or.inr ⟨m, o, List.mem_cons_self _ _, hsl, h.symm⟩
        · rw [if_neg hsl] at h
          exact Or.inl h
      · exact Or.inr ⟨m', o', List.mem_cons_of_mem _ hmem, hstg, hkey⟩
    | error err =>
      cases err with
      | WriteConflict s c =>
        rw [flushAux_cons_wc] at hk
        by_cases hsc : s < c
        · rw [if_pos hsc] at hk
          cases hcc : check_committed_record_on_err (cr m.key) (.WriteConflict s c) with
          | ok ls => rw [hcc] at hk; simp [FlushRes.staged] at hk
          | error e2 => rw [hcc] at hk; exact Or.inl (by simpa [FlushRes.staged] using hk)
        · rw [if_neg hsc] at hk
          exact Or.inl (by simpa [FlushRes.staged] using hk)
      | PessimisticLockNotFound =>
        rw [flushAux_cons_plnf] at hk
        exact Or.inl (by simpa [FlushRes.staged] using hk)
      | CommitTsTooLarge =>
        rw [flushAux_cons_ctl] at hk
        exact Or.inl (by simpa [FlushRes.staged] using hk)
      | KeyIsLocked kk =>
        rw [flushAux_cons_kil] at hk
        cases hcc : check_committed_record_on_err (cr m.key) (.KeyIsLocked kk) with
        | ok ls => rw [hcc] at hk; simp [FlushRes.staged] at hk
        | error e2 =>
          rw [hcc] at hk
          rcases ih _ _ _ k hk with h | ⟨m', o', hmem, hstg, hkey⟩
          · exact Or.inl h
          · exact Or.inr ⟨m', o', List.mem_cons_of_mem _ hmem, hstg, hkey⟩
      | AssertionFailed kk =>
        rw [flushAux_cons_af] at hk
        rcases ih _ _ _ k hk with h | ⟨m', o', hmem, hstg, hkey⟩
        · exact Or.inl h
        · exact Or.inr ⟨m', o', List.mem_cons_of_mem _ hmem, hstg, hkey⟩
      | Other code =>
        rw [flushAux_cons_other] at hk
        exact Or.inl (by simpa [FlushRes.staged] using hk)

theorem flushAux_staged_count (cr : Key → Option (List PerKeyRes)) :
    ∀ (entries : List (Mutation × PrewriteResult)) (staged : List Key)
      (locks : List PerKeyRes) (af : Option MvccErrorInner) (k : Key),
      (flushAux cr entries staged locks af).staged.count k ≤
        staged.count k + (entries.map (fun e => e.1.key)).count k := by
  intro entries
  induction entries with
  | nil =>
    intro staged locks af k
    cases af <;> simp [flushAux_nil_none, flushAux_nil_some, FlushRes.staged]
  | cons e rest ih =>
    intro staged locks af k
    obtain ⟨m, pr⟩ := e
    cases pr with
    | ok o =>
      rw [flushAux_cons_ok]
      by_cases hsl : o.stagedLock
      · rw [if_pos hsl]
        have h := ih (staged ++ [m.key]) locks af k
        simp only [List.count_append, List.count_nil, List.map_cons,
          List.count_cons] at h ⊢
        split_ifs at h ⊢ <;> omega
      · rw [if_neg hsl]
        have h := ih staged locks af k
        simp only [List.map_cons, List.count_cons] at h ⊢
        split_ifs at h ⊢ <;> omega
    | error err =>
      cases err with
      | WriteConflict s c =>
        rw [flushAux_cons_wc]
        by_cases hsc : s < c
        · rw [if_pos hsc]
          cases check_committed_record_on_err (cr m.key) (.WriteConflict s c) with
          | ok ls => simp [FlushRes.staged]
          | error e2 => exact Nat.le_add_right _ _
        · rw [if_neg hsc]
          exact Nat.le_add_right _ _
      | PessimisticLockNotFound =>
        rw [flushAux_cons_plnf]; exact Nat.le_add_right _ _
      | CommitTsTooLarge =>
        rw [flushAux_cons_ctl]; exact Nat.le_add_right _ _
      | KeyIsLocked kk =>
        rw [flushAux_cons_kil]
        cases check_committed_record_on_err (cr m.key) (.KeyIsLocked kk) with
        | ok ls => simp [FlushRes.staged]
        | error e2 =>
          have h := ih staged (locks ++ [Except.error e2]) af k
          simp only [List.map_cons, List.count_cons] at h ⊢
          split_ifs at h ⊢ <;> omega
      | AssertionFailed kk =>
        rw [flushAux_cons_af]
        have h := ih staged locks (if af.isNone then some (.AssertionFailed kk) else af) k
        simp only [List.map_cons, List.count_cons] at h ⊢
        split_ifs at h ⊢ <;> omega
      | Other code =>
        rw [flushAux_cons_other]; exact Nat.le_add_right _ _

theorem runPre_all_ok_staged (sts : TimeStamp) (st : Store) :
    ∀ (ms : List Mutation) (staged : List Key) (locks : List PerKeyRes)
      (af : Option MvccErrorInner),
      (∀ m ∈ ms, prewrite sts m st = Except.ok ⟨0, none, true⟩) →
      runPre (ms.map (fun m => (m, prewrite sts m st))) (staged, locks, af) =
        (staged ++ ms.map Mutation.key, locks, af) := by
  intro ms
  induction ms with
  | nil => intro staged locks af _; simp [runPre]
  | cons m ms ih =>
    intro staged locks af h
    have hm := h m (List.mem_cons_self _ _)
    have hrec := ih (staged ++ [m.key]) locks af
      (fun m hm => h m (List.mem_cons_of_mem _ hm))
    simp only [List.map_cons, runPre, List.foldl_cons] at hrec ⊢
    rw [hm]
    have hstep : stepSt (staged, locks, af)
        (m, Except.ok (⟨0, none, true⟩ : PrewriteOk)) = (staged ++ [m.key], locks, af) := by
      simp [stepSt]
    rw [hstep, hrec]
    simp

/-- C4: issuing the same Flush request twice over the spec-modelled store —
with the first invocation's staged locks applied in between and no
intervening commit of any other transaction — yields the same outcome (in
particular the same per-key result list) both times, the retry being
re-derived entirely from the snapshot via `prewrite` and the
committed-record lookup; and within one invocation over a batch of distinct
keys, a lock record is staged at most once per key. -/
theorem flush_idempotent_retry (sts : TimeStamp) (st : Store) (muts : List Mutation) :
    ((flushSpec sts (applyStaged sts st (flushSpec sts st muts).staged) muts).outcome
      = (flushSpec sts st muts).outcome)
  ∧ ((muts.map Mutation.key).Nodup →
      ∀ k, (flushSpec sts st muts).staged.count k ≤ 1) := by
  constructor
  · have hpt : ∀ m ∈ muts, entryEquiv
        (m, prewrite sts m (applyStaged sts st (flushSpec sts st muts).staged))
        (m, prewrite sts m st) := by
      intro m hm
      unfold entryEquiv
      by_cases hk : m.key ∈ (flushSpec sts st muts).staged
      · have hk' : m.key ∈ (flushAux (get_txn_commit_record sts st)
            (muts.map (fun m => (m, prewrite sts m st))) [] [] none).staged := hk
        rcases flushAux_staged_mem _ _ _ _ _ _ hk' with h | ⟨m', o, hmem, hstg, hkey⟩
        · simp at h
        · obtain ⟨m0, hm0, heq⟩ := List.mem_map.mp hmem
          have heq1 : m0 = m' := congrArg Prod.fst heq
          have heq2 : prewrite sts m0 st = Except.ok o := congrArg Prod.snd heq
          have hkm : m0.key = m.key := by rw [heq1]; exact hkey
          have hinv := prewrite_ok_staged_inv sts m0 st o heq2 hstg
          have hcl1 : (st m.key).lock = none := by rw [← hkm]; exact hinv.1
          have hcl2 : (st m.key).commits.find? (fun c => decide (sts < c.2)) = none := by
            rw [← hkm]; exact hinv.2
          have h1 : prewrite sts m st = Except.ok ⟨0, none, true⟩ :=
            prewrite_of_clean sts m st hcl1 hcl2
          have h2 : prewrite sts m (applyStaged sts st (flushSpec sts st muts).staged)
              = Except.ok ⟨0, none, false⟩ := by
            refine prewrite_of_self_lock sts m _ ?_
            show ((applyStaged sts st (flushSpec sts st muts).staged) m.key).lock = some sts
            unfold applyStaged
            rw [if_pos hk]
          exact ⟨rfl, Or.inr ⟨⟨_, h2⟩, ⟨_, h1⟩⟩⟩
      · have hsame : (applyStaged sts st (flushSpec sts st muts).staged) m.key = st m.key := by
          unfold applyStaged
          rw [if_neg hk]
        have hpw : prewrite sts m (applyStaged sts st (flushSpec sts st muts).staged)
            = prewrite sts m st := by
          unfold prewrite
          rw [hsame]
        exact ⟨rfl, Or.inl hpw⟩
    have hcr := get_txn_commit_record_applyStaged sts st (flushSpec sts st muts).staged
    have hf2 := forall2_map_of_mem
      (fun m => (m, prewrite sts m (applyStaged sts st (flushSpec sts st muts).staged)))
      (fun m => (m, prewrite sts m st)) muts hpt
    show (flushAux (get_txn_commit_record sts (applyStaged sts st (flushSpec sts st muts).staged))
        (muts.map (fun m =>
          (m, prewrite sts m (applyStaged sts st (flushSpec sts st muts).staged)))) [] [] none).outcome
      = (flushAux (get_txn_commit_record sts st)
          (muts.map (fun m => (m, prewrite sts m st))) [] [] none).outcome
    rw [hcr]
    exact flushAux_outcome_congr _ _ _ hf2 [] [] [] none
  · intro hnodup k
    have hcount := flushAux_staged_count (get_txn_commit_record sts st)
      (muts.map (fun m => (m, prewrite sts m st))) [] [] none k
    have hmm : ((muts.map (fun m => (m, prewrite sts m st))).map (fun e => e.1.key))
        = muts.map Mutation.key := by
      rw [List.map_map]
      rfl
    rw [hmm] at hcount
    have hcnt : ∀ l : List Key, l.Nodup → l.count k ≤ 1 := by
      intro l
      induction l with
      | nil => intro _; simp
      | cons a l ih =>
        intro hl
        obtain ⟨ha, hl'⟩ := List.nodup_cons.mp hl
        rw [List.count_cons]
        by_cases hk : k = a
        · subst hk
          have h0 : l.count k = 0 := List.count_eq_zero.mpr ha
          simp [h0]
        · have hba : (a == k) = false := by simp [Ne.symm hk]
          rw [hba]
          simpa using ih hl'
    have h1 : (muts.map Mutation.key).count k ≤ 1 := hcnt _ hnodup
    calc (flushSpec sts st muts).staged.count k
        ≤ ([] : List Key).count k + (muts.map Mutation.key).count k := hcount
      _ ≤ 1 := by simpa using h1

/-- C4 witness: a two-key batch (one clean key, one key locked by a foreign
transaction) re-issued after its staged lock is applied; the outcome is
unchanged and the clean key's lock is staged once. -/
theorem flush_idempotent_retry_w :
    ((flushSpec 5 (applyStaged 5
        (fun k => if k = [1] then (⟨some 9, []⟩ : KeyInfo) else ⟨none, []⟩)
        ((flushSpec 5 (fun k => if k = [1] then (⟨some 9, []⟩ : KeyInfo) else ⟨none, []⟩)
          [Mutation.Put ([0], [7]) .assertNone, Mutation.Put ([1], [8]) .assertNone]).staged))
      [Mutation.Put ([0], [7]) .assertNone, Mutation.Put ([1], [8]) .assertNone]).outcome
      = (flushSpec 5 (fun k => if k = [1] then (⟨some 9, []⟩ : KeyInfo) else ⟨none, []⟩)
          [Mutation.Put ([0], [7]) .assertNone, Mutation.Put ([1], [8]) .assertNone]).outcome)
  ∧ (flushSpec 5 (fun k => if k = [1] then (⟨some 9, []⟩ : KeyInfo) else ⟨none, []⟩)
      [Mutation.Put ([0], [7]) .assertNone,
       Mutation.Put ([1], [8]) .assertNone]).staged.count [0] ≤ 1 := by
  constructor
  · exact (flush_idempotent_retry 5
      (fun k => if k = [1] then (⟨some 9, []⟩ : KeyInfo) else ⟨none, []⟩)
      [Mutation.Put ([0], [7]) .assertNone, Mutation.Put ([1], [8]) .assertNone]).1
  · exact (flush_idempotent_retry 5
      (fun k => if k = [1] then (⟨some 9, []⟩ : KeyInfo) else ⟨none, []⟩)
      [Mutation.Put ([0], [7]) .assertNone, Mutation.Put ([1], [8]) .assertNone]).2
      (by decide) [0]

/-- C5: a batch of distinct keys in which exactly one key is locked by a
foreign transaction (different `start_ts`, no committed record for this
transaction) and every other key is conflict-free completes successfully —
the command does not abort — with the other keys' locks staged (one fewer
than the batch size) and a per-key result list containing exactly one error
entry, for the locked key. -/
theorem flush_partial_failure_single_locked
    (sts : TimeStamp) (st : Store) (pre post : List Mutation) (mj : Mutation)
    (l : TimeStamp)
    (_hnodup : ((pre ++ mj :: post).map Mutation.key).Nodup)
    (hclean : ∀ m ∈ pre ++ post, (st m.key).lock = none ∧
        (st m.key).commits.find? (fun c => decide (sts < c.2)) = none)
    (hlock : (st mj.key).lock = some l) (hne : l ≠ sts)
    (hnocommit : ∀ c ∈ (st mj.key).commits, c.1 ≠ sts) :
    flushSpec sts st (pre ++ mj :: post) =
      FlushRes.ok [Except.error (.KeyIsLocked mj.key)] ((pre ++ post).map Mutation.key)
  ∧ ((pre ++ post).map Mutation.key).length + 1 = (pre ++ mj :: post).length := by
  have hok : ∀ m ∈ pre ++ post, prewrite sts m st = Except.ok ⟨0, none, true⟩ :=
    fun m hm => prewrite_of_clean sts m st (hclean m hm).1 (hclean m hm).2
  have hokpre : ∀ m ∈ pre, prewrite sts m st = Except.ok ⟨0, none, true⟩ :=
    fun m hm => hok m (List.mem_append_left _ hm)
  have hokpost : ∀ m ∈ post, prewrite sts m st = Except.ok ⟨0, none, true⟩ :=
    fun m hm => hok m (List.mem_append_right _ hm)
  have hmj : prewrite sts mj st = Except.error (.KeyIsLocked mj.key) :=
    prewrite_of_foreign_lock sts mj st l hlock hne
  have hcr : get_txn_commit_record sts st mj.key = none := by
    unfold get_txn_commit_record
    have hany : ((st mj.key).commits.any (fun c => decide (c.1 = sts))) = false := by
      rw [List.any_eq_false]
      intro c hc
      simp [hnocommit c hc]
    rw [hany]
    simp
  constructor
  · have hNRpre : ∀ e ∈ pre.map (fun m => (m, prewrite sts m st)),
        nonReturning (get_txn_commit_record sts st) e = true := by
      intro e he
      obtain ⟨m, hm, rfl⟩ := List.mem_map.mp he
      rw [hokpre m hm]
      rfl
    have hNRpost : ∀ e ∈ post.map (fun m => (m, prewrite sts m st)),
        nonReturning (get_txn_commit_record sts st) e = true := by
      intro e he
      obtain ⟨m, hm, rfl⟩ := List.mem_map.mp he
      rw [hokpost m hm]
      rfl
    have hpre_run : runPre (pre.map (fun m => (m, prewrite sts m st))) ([], [], none)
        = (pre.map Mutation.key, [], none) := by
      have h := runPre_all_ok_staged sts st pre [] [] none hokpre
      simpa using h
    have hpost_run := runPre_all_ok_staged sts st post (pre.map Mutation.key)
      [Except.error (MvccErrorInner.KeyIsLocked mj.key)] none hokpost
    have happ := flushAux_append_nonReturning (get_txn_commit_record sts st)
      (post.map (fun m => (m, prewrite sts m st))) [] (pre.map Mutation.key)
      [Except.error (MvccErrorInner.KeyIsLocked mj.key)] none hNRpost
    rw [List.append_nil] at happ
    show flushAux (get_txn_commit_record sts st)
        ((pre ++ mj :: post).map (fun m => (m, prewrite sts m st))) [] [] none = _
    rw [List.map_append, List.map_cons,
      flushAux_append_nonReturning _ _ _ _ _ _ hNRpre, hpre_run, hmj]
    rw [flushAux_cons_kil, hcr]
    simp only [check_committed_record_on_err, List.nil_append]
    rw [happ, hpost_run, flushAux_nil_none, List.map_append]
  · simp only [List.length_map, List.length_append, List.length_cons]
    omega

/-- C5 witness: a three-key batch whose middle key holds a foreign lock
completes with the two other locks staged and a single error entry. -/
theorem flush_partial_failure_single_locked_w :
    flushSpec 5 (fun k => if k = [1] then (⟨some 9, []⟩ : KeyInfo) else ⟨none, []⟩)
      [Mutation.Put ([0], [7]) .assertNone, Mutation.Put ([1], [8]) .assertNone,
       Mutation.Delete [2] .assertNone]
      = FlushRes.ok [Except.error (.KeyIsLocked [1])] [[0], [2]] := by
  have h := (flush_partial_failure_single_locked 5
      (fun k => if k = [1] then (⟨some 9, []⟩ : KeyInfo) else ⟨none, []⟩)
      [Mutation.Put ([0], [7]) .assertNone] [Mutation.Delete [2] .assertNone]
      (Mutation.Put ([1], [8]) .assertNone) 9
      (by decide) (by decide) (by decide) (by decide) (by decide)).1
  exact h.trans (by decide)
